import Mathlib

/-!
Shallow embedding of the sentinel-visor core: the gap auditor
(`chain/gap/find.go`), the gap filler (`chain/gap/fill.go`), the miner
state diff engine (`chain/actors/builtin/miner/diff.go`), the message
processor (`chain/message`), and the message persistence model
(`model/messages/message.go`).

Machine integers (Go `int64`, `abi.ChainEpoch`) are embedded as `Int`;
none of the embedded arithmetic can overflow on the inputs considered.
Database queries are embedded as filters and sorts over in-memory lists
of rows; the chain node is embedded as a function from heights (or keys)
to `Except`-valued results, mirroring the Go API-error convention.
-/

namespace SentinelVisor

/-- Iteration helper for the Go loop idiom `for g := a; g < b; g++`: the `n`
consecutive integers starting at `a`. -/
def intRangeAux (a : Int) : Nat → List Int
  | 0 => []
  | n + 1 => a :: intRangeAux (a + 1) n

/-- Embedding of the Go loop idiom `for g := a; g < b; g++` collecting the
visited values: the ascending list of integers in `[a, b)`. -/
def intRange (a b : Int) : List Int :=
  intRangeAux a (b - a).toNat

namespace visor

/-- Modelled from the spec: a completion record of the Completion Store
(`visor.ProcessingReport`, whose Go definition is not among the extracted
sources). Per the spec data model it is keyed by (height, tipset, task) and
carries a status; only fields read by the gap auditor are included. -/
structure ProcessingReport where
  Height : Int
  TipSet : String
  Task : String
  Status : String
deriving Repr, DecidableEq

/-- Modelled from the spec: the status value marking a completion record as
explicitly skipped (`visor.ProcessingStatusSkip`, Go definition not among the
extracted sources). Its concrete text is irrelevant to every statement below;
only equality with itself is used. -/
def ProcessingStatusSkip : String := "SKIP"

/-- Row of the `visor_gap_reports` table (schema migration in the sources:
height, tip_set, task, status, reporter, reported_at). The timestamp is
embedded as an integer, opaque to all logic. -/
structure GapReport where
  Height : Int
  TipSet : String
  Task : String
  Status : String
  Reporter : String
  ReportedAt : Int
deriving Repr, DecidableEq

/-- Modelled from the spec: a leased work item of the Completion Store
(`visor.ProcessingTipSet`, Go definition not among the extracted sources);
the message processor reads its `TipSet` and `Height` fields. -/
structure ProcessingTipSet where
  TipSet : String
  Height : Int
deriving Repr, DecidableEq

/-- Modelled from the spec: a message queued for later processing stages
(`visor.ProcessingMessage`, Go definition not among the extracted sources),
recording the message content hash at a height. -/
structure ProcessingMessage where
  Cid : String
  Height : Int
deriving Repr, DecidableEq

end visor

namespace types

/-- Tipset view used by the gap auditor: its height and the string form of
its key, the two observations `find.go` makes of a lotus tipset. -/
structure TipSet where
  height : Int
  key : String
deriving Repr, DecidableEq

/-- Fields of a lotus `types.Message` read by the message processor. The
content hash `message.Cid()` is a pure function of the message content and is
embedded as a field. -/
structure Message where
  cid : String
  From : String
  To : String
  Value : String
  GasFeeCap : String
  GasPremium : String
  GasLimit : Int
  Nonce : Nat
  Method : Nat
  Params : List Nat
deriving Repr, DecidableEq

/-- Lotus signed message: the processor only reads the embedded `Message`. -/
structure SignedMessage where
  Message : types.Message
deriving Repr, DecidableEq

end types

namespace api

/-- Per-block message lists returned by `ChainGetBlockMessages`. -/
structure BlockMessages where
  BlsMessages : List types.Message
  SecpkMessages : List types.SignedMessage
deriving Repr, DecidableEq

end api

namespace gap

/-- Embedding of the inner Go loop of `findEpochGaps`: given the previous
report's height and the remaining reports (in query order), collect, per
adjacent pair, the heights strictly between the current and previous one. -/
def gapsBetween : Int → List visor.ProcessingReport → List Int
  | _, [] => []
  | prevHeight, cur :: rest =>
      intRange (cur.Height + 1) prevHeight ++ gapsBetween cur.Height rest

/-- Height of the last element of the report list (`prs[len(prs)-1].Height`);
0 for the empty list, which `findEpochGaps` never queries. -/
def lastHeight (prs : List visor.ProcessingReport) : Int :=
  match prs.getLast? with
  | some r => r.Height
  | none => 0

/-- Embedding of `findEpochGaps` (`chain/gap/find.go`): candidate gap heights
between adjacent recorded heights plus every height below the oldest recorded
height, sorted ascending. The Go code sorts with `sort.Slice` under `<` on
`int64`; on a total order every comparison sort produces the same list, so the
sort is embedded as insertion sort. -/
def findEpochGaps (prs : List visor.ProcessingReport) : List Int :=
  match prs with
  | [] => []
  | p0 :: rest =>
      let maybeGap := gapsBetween p0.Height rest ++ intRange 0 (lastHeight (p0 :: rest))
      List.insertionSort (· ≤ ·) maybeGap

/-- Embedding of the SQL query in `detectSkippedTipSets`: completion records
with status skip, ordered by height descending. -/
def queryProcessingSkips (table : List visor.ProcessingReport) : List visor.ProcessingReport :=
  List.insertionSort (fun a b => b.Height ≤ a.Height)
    (table.filter (fun r => r.Status == visor.ProcessingStatusSkip))

/-- Embedding of `GapIndexer.detectSkippedTipSets` (`chain/gap/find.go`):
for every skip-status completion record, query the chain for the tipset at
the record's height and emit a GAP report built from the record's height and
task and the queried tipset's key. The chain node is the function `node`
(`ChainGetTipSetByHeight` with the empty start key). -/
def GapIndexer.detectSkippedTipSets (node : Int → Except String types.TipSet)
    (reportTime : Int) (table : List visor.ProcessingReport) :
    Except String (List visor.GapReport) :=
  (queryProcessingSkips table).mapM (fun r => do
    let tsgap ← node r.Height
    pure { Height := r.Height
           TipSet := tsgap.key
           Task := r.Task
           Status := "GAP"
           Reporter := "gapIndexer"
           ReportedAt := reportTime : visor.GapReport })

/-- Embedding of `GapIndexer.detectProcessingGaps` (`chain/gap/find.go`):
walk the candidate gaps from `findEpochGaps` and, whenever the chain returns a
tipset whose height equals the candidate, emit one GAP report per known
extraction task. The task list `chain.AllTasks` (a constant of the `chain`
package, not among the extracted sources) is a parameter. -/
def GapIndexer.detectProcessingGaps (node : Int → Except String types.TipSet)
    (allTasks : List String) (reportTime : Int)
    (reportHeights : List visor.ProcessingReport) :
    Except String (List visor.GapReport) :=
  (findEpochGaps reportHeights).foldlM (fun acc g => do
    let tsgap ← node g
    if tsgap.height = g then
      pure (acc ++ allTasks.map (fun task =>
        { Height := tsgap.height
          TipSet := tsgap.key
          Task := task
          Status := "GAP"
          Reporter := "gapIndexer"
          ReportedAt := reportTime : visor.GapReport }))
    else
      pure acc) []

/-- Embedding of `GapFiller.queryGaps` (`chain/gap/fill.go`): gap reports with
status GAP, restricted to the filler's task list when that list is non-empty,
ordered by height descending. -/
def GapFiller.queryGaps (tasks : List String) (db : List visor.GapReport) :
    List visor.GapReport :=
  let base := db.filter (fun g => g.Status == "GAP")
  let filtered := if tasks.length != 0
    then base.filter (fun g => tasks.contains g.Task)
    else base
  List.insertionSort (fun a b => b.Height ≤ a.Height) filtered

/-- Embedding of `GapFiller.Run` (`chain/gap/fill.go`): for every queried gap,
re-drive a single-height, single-task walk. The indexer construction plus
`walker.Run` are the function `run`; on success the report's status is set to
FILLED, on failure the status is set to the error text (both failure arms of
the Go code assign `gap.Status = err.Error()`). The returned list is what
`updateGaps` persists. -/
def GapFiller.Run (tasks : List String) (run : Int → String → Except String Unit)
    (db : List visor.GapReport) : List visor.GapReport :=
  (GapFiller.queryGaps tasks db).map (fun gap =>
    match run gap.Height gap.Task with
    | .ok _ => { gap with Status := "FILLED" }
    | .error e => { gap with Status := e })

end gap

/-- Actor code identifier (an IPLD CID in Go). The registered storage-miner
and storage-market code CIDs referenced by `diff.go` are distinct constants;
they are embedded as constructors of an inductive type, with `other` covering
every remaining code. -/
inductive Cid where
  | minerV0
  | minerV2
  | minerV3
  | minerV4
  | marketV0
  | marketV2
  | other (n : Nat)
deriving Repr, DecidableEq

namespace builtin0

/-- Storage-miner actor code of specs-actors v0. -/
def StorageMinerActorCodeID : Cid := .minerV0

/-- Storage-market actor code of specs-actors v0. -/
def StorageMarketActorCodeID : Cid := .marketV0

end builtin0

namespace builtin2

/-- Storage-miner actor code of specs-actors v2. -/
def StorageMinerActorCodeID : Cid := .minerV2

/-- Storage-market actor code of specs-actors v2. -/
def StorageMarketActorCodeID : Cid := .marketV2

end builtin2

namespace builtin3

/-- Storage-miner actor code of specs-actors v3. -/
def StorageMinerActorCodeID : Cid := .minerV3

end builtin3

namespace builtin4

/-- Storage-miner actor code of specs-actors v4. -/
def StorageMinerActorCodeID : Cid := .minerV4

end builtin4

namespace miner3

/-- Constant `miner.SectorsAmtBitwidth` of specs-actors v3 (external
dependency): the sectors array bitwidth, 5. -/
def SectorsAmtBitwidth : Int := 5

end miner3

namespace miner4

/-- Constant `miner.SectorsAmtBitwidth` of specs-actors v4 (external
dependency): the sectors array bitwidth, 5. -/
def SectorsAmtBitwidth : Int := 5

end miner4

namespace adt

/-- Modelled from the spec: HAMT container parameters (`adt.MapOpts`, Go
definition not among the extracted sources) — the hash function and the
branching bitwidth of a map container. -/
structure MapOpts where
  Bitwidth : Int
  HashFunc : Nat
deriving Repr, DecidableEq

/-- Modelled from the spec: `MapOpts.Equal` — parameter equality, true when
both the hash function and the bitwidth agree. -/
def MapOpts.Equal (a b : MapOpts) : Bool :=
  a.Bitwidth == b.Bitwidth && a.HashFunc == b.HashFunc

end adt

namespace miner

/-- Raw serialized value handed to the diff containers before decoding
(`cbg.Deferred`, which wraps raw CBOR bytes). -/
structure Deferred where
  Raw : List Nat
deriving Repr, DecidableEq

/-- Modelled from the external specs-actors sector record: the diff container
inspects only its expiration epoch; every other field is abstracted into
`rest`, which participates in equality (so unrelated byte-level changes are
representable). -/
structure SectorOnChainInfo where
  SectorNumber : Nat
  Expiration : Int
  rest : List Nat
deriving Repr, DecidableEq

/-- Modelled from the external specs-actors pre-commit record, fully opaque to
the diff container. -/
structure SectorPreCommitOnChainInfo where
  raw : List Nat
deriving Repr, DecidableEq

/-- Pair of sector records whose expiration changed between two states. -/
structure SectorExtensions where
  From : SectorOnChainInfo
  To : SectorOnChainInfo
deriving Repr, DecidableEq

/-- Result of `DiffSectors`: added, extended and removed sector records. -/
structure SectorChanges where
  Added : List SectorOnChainInfo
  Extended : List SectorExtensions
  Removed : List SectorOnChainInfo
deriving Repr, DecidableEq

/-- Result of `DiffPreCommits`: added and removed pre-commit records; the type
has no field for modified entries. -/
structure PreCommitChanges where
  Added : List SectorPreCommitOnChainInfo
  Removed : List SectorPreCommitOnChainInfo
deriving Repr, DecidableEq

/-- Version-polymorphic miner state view: its actor code, and the
version-specific decoders for raw sector and pre-commit values (the `State`
capability interface; the concrete per-version decoders live outside the
extracted sources and are abstracted as functions). -/
structure State where
  Code : Cid
  decodeSectorOnChainInfo : Deferred → Except String SectorOnChainInfo
  decodeSectorPreCommitOnChainInfo : Deferred → Except String SectorPreCommitOnChainInfo

/-- Embedding of `preCommitDiffContainer` (`diff.go`): accumulated results
plus the two state views used for decoding. -/
structure preCommitDiffContainer where
  Results : PreCommitChanges
  pre : State
  after : State

/-- Embedding of `NewPreCommitDiffContainer`. -/
def NewPreCommitDiffContainer (pre cur : State) : preCommitDiffContainer :=
  { Results := { Added := [], Removed := [] }, pre := pre, after := cur }

/-- Embedding of `preCommitDiffContainer.Add`: decode the new-side value and
append it to the Added results. -/
def preCommitDiffContainer.Add (m : preCommitDiffContainer) (key : String)
    (val : Deferred) : Except String preCommitDiffContainer := do
  let sp ← m.after.decodeSectorPreCommitOnChainInfo val
  pure { m with Results := { m.Results with Added := m.Results.Added ++ [sp] } }

/-- Embedding of `preCommitDiffContainer.Modify`: the body is `return nil` —
nothing is decoded and the results are unchanged. -/
def preCommitDiffContainer.Modify (m : preCommitDiffContainer) (key : String)
    (f t : Deferred) : Except String preCommitDiffContainer :=
  pure m

/-- Embedding of `preCommitDiffContainer.Remove`: decode the old-side value
and append it to the Removed results. -/
def preCommitDiffContainer.Remove (m : preCommitDiffContainer) (key : String)
    (val : Deferred) : Except String preCommitDiffContainer := do
  let sp ← m.pre.decodeSectorPreCommitOnChainInfo val
  pure { m with Results := { m.Results with Removed := m.Results.Removed ++ [sp] } }

/-- Embedding of `sectorDiffContainer` (`diff.go`). -/
structure sectorDiffContainer where
  Results : SectorChanges
  pre : State
  after : State

/-- Embedding of `NewSectorDiffContainer`. -/
def NewSectorDiffContainer (pre cur : State) : sectorDiffContainer :=
  { Results := { Added := [], Extended := [], Removed := [] }, pre := pre, after := cur }

/-- Embedding of `sectorDiffContainer.Add`. -/
def sectorDiffContainer.Add (m : sectorDiffContainer) (key : Nat)
    (val : Deferred) : Except String sectorDiffContainer := do
  let si ← m.after.decodeSectorOnChainInfo val
  pure { m with Results := { m.Results with Added := m.Results.Added ++ [si] } }

/-- Embedding of `sectorDiffContainer.Modify`: decode both sides and append a
SectorExtensions pair exactly when the expiration epochs differ. -/
def sectorDiffContainer.Modify (m : sectorDiffContainer) (key : Nat)
    (f t : Deferred) : Except String sectorDiffContainer := do
  let siFrom ← m.pre.decodeSectorOnChainInfo f
  let siTo ← m.after.decodeSectorOnChainInfo t
  if siFrom.Expiration != siTo.Expiration then
    pure { m with Results := { m.Results with
             Extended := m.Results.Extended ++ [{ From := siFrom, To := siTo }] } }
  else
    pure m

/-- Embedding of `sectorDiffContainer.Remove`. -/
def sectorDiffContainer.Remove (m : sectorDiffContainer) (key : Nat)
    (val : Deferred) : Except String sectorDiffContainer := do
  let si ← m.pre.decodeSectorOnChainInfo val
  pure { m with Results := { m.Results with Removed := m.Results.Removed ++ [si] } }

/-- Change to one key of a HAMT map container, as produced by the external
structural differ `diff.Hamt` or by the generic differ's classification
(a key only on the new side, only on the old side, or on both sides with
different serialized bytes). -/
inductive MapChange where
  | Add (key : String) (after : Deferred)
  | Remove (key : String) (before : Deferred)
  | Modify (key : String) (before after : Deferred)
deriving Repr, DecidableEq

/-- True exactly on Modify changes. -/
def MapChange.isModify : MapChange → Bool
  | .Modify _ _ _ => true
  | _ => false

/-- Change to one key of an AMT array container (external structural differ
`diff.Amt` or generic classification). -/
inductive ArrayChange where
  | Add (key : Nat) (after : Deferred)
  | Remove (key : Nat) (before : Deferred)
  | Modify (key : Nat) (before after : Deferred)
deriving Repr, DecidableEq

/-- Embedding of the change-dispatch loop of `DiffPreCommits`: route each
change to the container's Add/Remove/Modify handler. -/
def applyPreCommitChanges (changes : List MapChange) (c : preCommitDiffContainer) :
    Except String preCommitDiffContainer :=
  changes.foldlM (fun dc ch =>
    match ch with
    | .Add k a => dc.Add k a
    | .Remove k b => dc.Remove k b
    | .Modify k b a => dc.Modify k b a) c

/-- Embedding of the change-dispatch loop of `DiffSectors`. -/
def applySectorChanges (changes : List ArrayChange) (c : sectorDiffContainer) :
    Except String sectorDiffContainer :=
  changes.foldlM (fun dc ch =>
    match ch with
    | .Add k a => dc.Add k a
    | .Remove k b => dc.Remove k b
    | .Modify k b a => dc.Modify k b a) c

/-- Embedding of `DiffPreCommits` downstream of strategy selection: both the
generic differ (`diff.GenericMap`) and the structural differ (`diff.Hamt`)
reduce the two containers to a per-key change list, which is routed through
the pre-commit container's handlers; the change list produced by the external
differ is a parameter. -/
def DiffPreCommits (changes : List MapChange) (pre cur : State) :
    Except String PreCommitChanges := do
  let c ← applyPreCommitChanges changes (NewPreCommitDiffContainer pre cur)
  pure c.Results

/-- Embedding of `SectorsAmtBitwidth` (`diff.go`): the sectors array bitwidth
per storage-miner actor code; unknown codes are an error. -/
def SectorsAmtBitwidth (c : Cid) : Except String Int :=
  if c = builtin0.StorageMinerActorCodeID then .ok 3
  else if c = builtin2.StorageMinerActorCodeID then .ok 3
  else if c = builtin3.StorageMinerActorCodeID then .ok miner3.SectorsAmtBitwidth
  else if c = builtin4.StorageMinerActorCodeID then .ok miner4.SectorsAmtBitwidth
  else .error "unknown actor code"

/-- Embedding of `arrayRequiresLegacyDiffing` (`diff.go`): note that the four
code checks compare against the storage-MARKET actor codes. -/
def arrayRequiresLegacyDiffing (pre cur : State) (pOpts cOpts : Int) : Bool :=
  if pre.Code = builtin0.StorageMarketActorCodeID then true
  else if pre.Code = builtin2.StorageMarketActorCodeID then true
  else if cur.Code = builtin0.StorageMarketActorCodeID then true
  else if cur.Code = builtin2.StorageMarketActorCodeID then true
  else if pOpts != cOpts then true
  else false

/-- Concrete miner state view with the v0 storage-miner actor code; the
decoders are never invoked by strategy selection. -/
def exampleStateV0 : State :=
  { Code := builtin0.StorageMinerActorCodeID
    decodeSectorOnChainInfo := fun _ => .error "unused"
    decodeSectorPreCommitOnChainInfo := fun _ => .error "unused" }

/-- Concrete miner state view with the v2 storage-miner actor code. -/
def exampleStateV2 : State :=
  { Code := builtin2.StorageMinerActorCodeID
    decodeSectorOnChainInfo := fun _ => .error "unused"
    decodeSectorPreCommitOnChainInfo := fun _ => .error "unused" }

/-- Concrete miner state view with the v3 storage-miner actor code. -/
def exampleStateV3 : State :=
  { Code := builtin3.StorageMinerActorCodeID
    decodeSectorOnChainInfo := fun _ => .error "unused"
    decodeSectorPreCommitOnChainInfo := fun _ => .error "unused" }

/-- Embedding of `mapRequiresLegacyDiffing` (`diff.go`): the four code checks
compare against the storage-MINER actor codes. -/
def mapRequiresLegacyDiffing (pre cur : State) (pOpts cOpts : adt.MapOpts) : Bool :=
  if pre.Code = builtin0.StorageMinerActorCodeID then true
  else if pre.Code = builtin2.StorageMinerActorCodeID then true
  else if cur.Code = builtin0.StorageMinerActorCodeID then true
  else if cur.Code = builtin2.StorageMinerActorCodeID then true
  else if !(pOpts.Equal cOpts) then true
  else false

end miner

namespace messagemodel

/-- Row of the messages table (`model/messages/message.go`), primary key
`Cid`. -/
structure Message where
  Cid : String
  From : String
  To : String
  Value : String
  GasFeeCap : String
  GasPremium : String
  GasLimit : Int
  SizeBytes : Int
  Nonce : Nat
  Method : Nat
  Params : List Nat
deriving Repr, DecidableEq

/-- Row of the block_messages table: one (block, message) inclusion pair. -/
structure BlockMessage where
  Block : String
  Message : String
deriving Repr, DecidableEq

/-- Embedding of `Message.PersistWithTx` (`model/messages/message.go`): a
go-pg insert with `OnConflict("do nothing")` against the table keyed by the
primary key `Cid` — if a row with the same content hash exists the insert is a
no-op, otherwise the row is appended. -/
def Message.PersistWithTx (m : Message) (table : List Message) : List Message :=
  if table.any (fun r => r.Cid == m.Cid) then table else table ++ [m]

/-- Embedding of `Messages.PersistWithTx`: persist each message in order. -/
def Messages.PersistWithTx (ms : List Message) (table : List Message) : List Message :=
  ms.foldl (fun t m => m.PersistWithTx t) table

end messagemodel

namespace message

/-- Accumulator of the `extractMessageModels` loops (`chain/message`): the
unique-message rows, the per-occurrence (block, message) rows, the processing
queue rows, the set of content hashes already seen, and the two gas-limit
totals. The floating-point gas-economy aggregates derived from these totals
are outside the embedding. -/
structure ExtractState where
  msgModels : List messagemodel.Message
  bmsgModels : List messagemodel.BlockMessage
  pmsgModels : List SentinelVisor.visor.ProcessingMessage
  msgsSeen : List String
  totalGasLimit : Int
  totalUniqGasLimit : Int
deriving Repr, DecidableEq

/-- Initial accumulator. -/
def ExtractState.init : ExtractState :=
  { msgModels := [], bmsgModels := [], pmsgModels := [], msgsSeen := []
    totalGasLimit := 0, totalUniqGasLimit := 0 }

/-- Embedding of the per-message body of the `extractMessageModels` inner
loop: always record the (block, message) inclusion pair and add the gas limit
to the all-occurrences total; then, unless the content hash was already seen,
add to the unique total, queue a processing row, serialize the message for its
size (a serialization failure aborts the whole extraction), record the unique
message row and mark the hash seen. The external `types.Message.Serialize` is
the parameter `serialize`. -/
def processMessage (serialize : types.Message → Except String (List Nat))
    (tsHeight : Int) (blk : String) (st : ExtractState) (m : types.Message) :
    Except String ExtractState :=
  let st := { st with
    bmsgModels := st.bmsgModels ++ [({ Block := blk, Message := m.cid } : messagemodel.BlockMessage)]
    totalUniqGasLimit := st.totalUniqGasLimit + m.GasLimit }
  if st.msgsSeen.contains m.cid then
    pure st
  else do
    let b ← serialize m
    pure { st with
      totalGasLimit := st.totalGasLimit + m.GasLimit
      pmsgModels := st.pmsgModels ++
        [({ Cid := m.cid, Height := tsHeight } : SentinelVisor.visor.ProcessingMessage)]
      msgModels := st.msgModels ++ [({
        Cid := m.cid
        From := m.From
        To := m.To
        Value := m.Value
        GasFeeCap := m.GasFeeCap
        GasPremium := m.GasPremium
        GasLimit := m.GasLimit
        SizeBytes := Int.ofNat b.length
        Nonce := m.Nonce
        Method := m.Method
        Params := m.Params } : messagemodel.Message)]
      msgsSeen := st.msgsSeen ++ [m.cid] }

/-- All messages of one block in extraction order: the BLS messages followed
by the messages of the signed secp messages (`vmm` in the Go code). -/
def blockMessageList (bm : api.BlockMessages) : List types.Message :=
  bm.BlsMessages ++ bm.SecpkMessages.map (fun sm => sm.Message)

/-- Embedding of `MessageProcessor.extractMessageModels` (`chain/message`)
restricted to its list outputs and integer gas totals: fold the per-message
body over every message of every block. Go iterates the per-block map in an
unspecified order; the embedding takes the blocks as a list in iteration
order. -/
def MessageProcessor.extractMessageModels
    (serialize : types.Message → Except String (List Nat)) (tsHeight : Int)
    (blkMsgs : List (String × api.BlockMessages)) : Except String ExtractState :=
  blkMsgs.foldlM (fun st p =>
    (blockMessageList p.2).foldlM (fun st m => processMessage serialize tsHeight p.1 st m) st)
    ExtractState.init

/-- Completion mark written by `MarkTipSetMessagesComplete`: the item's
tipset, its height and the recorded error detail (empty on success). -/
structure Completion where
  TipSet : String
  Height : Int
  ErrorsDetected : String
deriving Repr, DecidableEq

/-- Embedding of `MessageProcessor.processBatch` (`chain/message`): lease a
batch (the lease outcome is the parameter `lease`); a lease failure is
returned as the loop-stopping error, an empty batch just yields; otherwise
each item is processed and marked complete with its error text (or the empty
text on success) and processing continues with the next item. The result is
the list of completion marks, the stop flag and the returned error of the Go
`(bool, error)` pair. Store failures of the completion mark itself are only
logged in Go and are outside the embedding. -/
def MessageProcessor.processBatch
    (lease : Except String (List SentinelVisor.visor.ProcessingTipSet))
    (processItem : SentinelVisor.visor.ProcessingTipSet → Except String Unit) :
    List Completion × Bool × Option String :=
  match lease with
  | .error e => ([], true, some e)
  | .ok [] => ([], false, none)
  | .ok batch =>
      (batch.map (fun item =>
        match processItem item with
        | .ok _ => ({ TipSet := item.TipSet, Height := item.Height, ErrorsDetected := "" } : Completion)
        | .error e => ({ TipSet := item.TipSet, Height := item.Height, ErrorsDetected := e } : Completion)),
       false, none)

/-- Transactional write against a store of type `δ`: on success the new store
state, on failure the original state (rollback) together with the error. This
is the embedding of go-pg `RunInTransaction`. -/
def RunInTransaction (db : δ) (body : δ → Except String δ) : δ × Option String :=
  match body db with
  | .ok db2 => (db2, none)
  | .error e => (db, some e)

/-- Embedding of the persistence step of `MessageProcessor.processTipSet`:
all derived rows of one tipset — the task result (messages, block messages,
receipts, gas economy) and the processing queue rows — are written inside a
single transaction; the two row-group writers are parameters. -/
def processTipSetPersist (db : δ) (persistResult persistProcessing : δ → Except String δ) :
    δ × Option String :=
  RunInTransaction db (fun d => do
    let d ← persistResult d
    let d ← persistProcessing d
    pure d)

end message

end SentinelVisor

namespace SentinelVisor

/-! Helper lemmas about the candidate-gap computation. -/

theorem mem_intRangeAux : ∀ (n : Nat) (a x : Int),
    x ∈ intRangeAux a n ↔ a ≤ x ∧ x < a + n := by
  intro n
  induction n with
  | zero => intro a x; simp [intRangeAux]
  | succ m ih =>
      intro a x
      simp only [intRangeAux, List.mem_cons, ih (a + 1) x]
      omega

theorem mem_intRange {a b x : Int} : x ∈ intRange a b ↔ a ≤ x ∧ x < b := by
  unfold intRange
  rw [mem_intRangeAux]
  omega

theorem intRangeAux_nodup : ∀ (n : Nat) (a : Int), (intRangeAux a n).Nodup := by
  intro n
  induction n with
  | zero => intro a; simp [intRangeAux]
  | succ m ih =>
      intro a
      simp only [intRangeAux, List.nodup_cons]
      refine ⟨fun h => ?_, ih (a + 1)⟩
      have := (mem_intRangeAux m (a + 1) a).mp h
      omega

theorem intRange_nodup (a b : Int) : (intRange a b).Nodup :=
  intRangeAux_nodup _ _

namespace gap

theorem mem_gapsBetween (l : List visor.ProcessingReport) :
    ∀ (p : visor.ProcessingReport) (x : Int),
      x ∈ gapsBetween p.Height l ↔
        ∃ q ∈ (p :: l).zip l, q.2.Height < x ∧ x < q.1.Height := by
  induction l with
  | nil => intro p x; simp [gapsBetween]
  | cons c rest ih =>
      intro p x
      simp only [gapsBetween, List.mem_append, mem_intRange, List.zip_cons_cons,
        List.mem_cons]
      constructor
      · rintro (⟨h1, h2⟩ | h)
        · exact ⟨(p, c), Or.inl rfl, (by omega : c.Height < x), h2⟩
        · obtain ⟨q, hq, h1, h2⟩ := (ih c x).mp h
          exact ⟨q, Or.inr hq, h1, h2⟩
      · rintro ⟨q, (rfl | hq), h1, h2⟩
        · have h1a : c.Height < x := h1
          have h2a : x < p.Height := h2
          exact Or.inl ⟨by omega, h2a⟩
        · exact Or.inr ((ih c x).mpr ⟨q, hq, h1, h2⟩)

theorem gapsBetween_lt (l : List visor.ProcessingReport) :
    ∀ (p : visor.ProcessingReport) (x : Int),
      List.Chain' (fun a b => b.Height < a.Height) (p :: l) →
      x ∈ gapsBetween p.Height l → x < p.Height := by
  induction l with
  | nil => intro p x _ h; simp [gapsBetween] at h
  | cons c rest ih =>
      intro p x hch h
      rw [List.chain'_cons] at hch
      rcases List.mem_append.mp h with h1 | h2
      · exact (mem_intRange.mp h1).2
      · exact lt_trans (ih c x hch.2 h2) hch.1

theorem lastHeight_le (l : List visor.ProcessingReport) :
    ∀ (c : visor.ProcessingReport),
      List.Chain' (fun a b => b.Height < a.Height) (c :: l) →
      lastHeight (c :: l) ≤ c.Height := by
  induction l with
  | nil => intro c _; simp [lastHeight]
  | cons d rest ih =>
      intro c hch
      rw [List.chain'_cons] at hch
      have h1 : lastHeight (c :: d :: rest) = lastHeight (d :: rest) := by
        simp [lastHeight, List.getLast?_cons_cons]
      rw [h1]
      exact le_trans (ih d hch.2) (le_of_lt hch.1)

theorem gapsBetween_gt_last (l : List visor.ProcessingReport) :
    ∀ (p : visor.ProcessingReport) (x : Int),
      List.Chain' (fun a b => b.Height < a.Height) (p :: l) →
      x ∈ gapsBetween p.Height l → lastHeight (p :: l) < x := by
  induction l with
  | nil => intro p x _ h; simp [gapsBetween] at h
  | cons c rest ih =>
      intro p x hch h
      have heq : lastHeight (p :: c :: rest) = lastHeight (c :: rest) := by
        simp [lastHeight, List.getLast?_cons_cons]
      rw [heq]
      rw [List.chain'_cons] at hch
      rcases List.mem_append.mp h with h1 | h2
      · have := (mem_intRange.mp h1).1
        have := lastHeight_le rest c hch.2
        omega
      · exact ih c x hch.2 h2

theorem gapsBetween_nodup (l : List visor.ProcessingReport) :
    ∀ (p : visor.ProcessingReport),
      List.Chain' (fun a b => b.Height < a.Height) (p :: l) →
      (gapsBetween p.Height l).Nodup := by
  induction l with
  | nil => intro p _; simp [gapsBetween]
  | cons c rest ih =>
      intro p hch
      rw [List.chain'_cons] at hch
      refine (intRange_nodup _ _).append (ih c hch.2) ?_
      intro x hx1 hx2
      have h1 := (mem_intRange.mp hx1).1
      have h2 := gapsBetween_lt rest c x hch.2 hx2
      omega

/-- C3: for every non-empty list of distinct recorded heights given in
descending order, `findEpochGaps` returns, sorted ascending and without
duplicates, exactly the heights strictly between each adjacent pair of
recorded heights together with every height from 0 up to but excluding the
oldest recorded height; in particular recorded heights 10, 8, 5 yield
0, 1, 2, 3, 4, 6, 7, 9. -/
theorem findEpochGaps_spec (prs : List visor.ProcessingReport)
    (hne : prs ≠ [])
    (hdesc : List.Chain' (fun a b => b.Height < a.Height) prs) :
    List.Sorted (· ≤ ·) (findEpochGaps prs) ∧
    (findEpochGaps prs).Nodup ∧
    (∀ x : Int, x ∈ findEpochGaps prs ↔
      ((∃ q ∈ prs.zip prs.tail, q.2.Height < x ∧ x < q.1.Height) ∨
       (0 ≤ x ∧ x < lastHeight prs))) ∧
    findEpochGaps
      [{ Height := 10, TipSet := "", Task := "", Status := "" },
       { Height := 8, TipSet := "", Task := "", Status := "" },
       { Height := 5, TipSet := "", Task := "", Status := "" }] =
      [0, 1, 2, 3, 4, 6, 7, 9] := by
  match prs, hne with
  | p0 :: rest, _ =>
    have hunfold : findEpochGaps (p0 :: rest) =
        List.insertionSort (· ≤ ·)
          (gapsBetween p0.Height rest ++ intRange 0 (lastHeight (p0 :: rest))) := rfl
    refine ⟨?_, ?_, ?_, by decide⟩
    · rw [hunfold]
      exact List.sorted_insertionSort _ _
    · rw [hunfold]
      refine (List.perm_insertionSort _ _).nodup_iff.mpr ?_
      refine List.Nodup.append (gapsBetween_nodup rest p0 hdesc)
        (intRange_nodup 0 _) ?_
      intro x hx1 hx2
      have h1 := gapsBetween_gt_last rest p0 x hdesc hx1
      have h2 := (mem_intRange.mp hx2).2
      omega
    · intro x
      rw [hunfold, List.mem_insertionSort, List.mem_append, mem_gapsBetween,
        mem_intRange]
      rfl

/-- Witness for C3: the theorem applied to the concrete descending height
list 10, 8, 5 of the spec scenario. -/
theorem findEpochGaps_spec_witness :
    List.Sorted (· ≤ ·) (findEpochGaps
      [{ Height := 10, TipSet := "", Task := "", Status := "" },
       { Height := 8, TipSet := "", Task := "", Status := "" },
       { Height := 5, TipSet := "", Task := "", Status := "" }]) ∧
    findEpochGaps
      [{ Height := 10, TipSet := "", Task := "", Status := "" },
       { Height := 8, TipSet := "", Task := "", Status := "" },
       { Height := 5, TipSet := "", Task := "", Status := "" }] =
      [0, 1, 2, 3, 4, 6, 7, 9] := by
  have h := findEpochGaps_spec
    [{ Height := 10, TipSet := "", Task := "", Status := "" },
     { Height := 8, TipSet := "", Task := "", Status := "" },
     { Height := 5, TipSet := "", Task := "", Status := "" }]
    (by decide) (by simp [List.chain'_cons])
  exact ⟨h.1, h.2.2.2⟩

theorem detectProcessingGaps_fold (node : Int → Except String types.TipSet)
    (allTasks : List String) (reportTime : Int) :
    ∀ (l : List Int) (acc rs : List visor.GapReport),
      l.foldlM (fun acc g => do
        let tsgap ← node g
        if tsgap.height = g then
          pure (acc ++ allTasks.map (fun task =>
            { Height := tsgap.height
              TipSet := tsgap.key
              Task := task
              Status := "GAP"
              Reporter := "gapIndexer"
              ReportedAt := reportTime : visor.GapReport }))
        else
          pure acc) acc = .ok rs →
      rs = acc ++ l.flatMap (fun g =>
        match node g with
        | .ok ts =>
            if ts.height = g then
              allTasks.map (fun task =>
                { Height := ts.height
                  TipSet := ts.key
                  Task := task
                  Status := "GAP"
                  Reporter := "gapIndexer"
                  ReportedAt := reportTime : visor.GapReport })
            else []
        | .error _ => []) := by
  intro l
  induction l with
  | nil =>
      intro acc rs h
      simp only [List.foldlM_nil] at h
      cases h
      simp
  | cons g l ih =>
      intro acc rs h
      rw [List.foldlM_cons] at h
      cases hnode : node g with
      | error e =>
          rw [hnode] at h
          simp only [bind, Except.bind] at h
          exact Except.noConfusion h
      | ok ts =>
          rw [hnode] at h
          simp only [bind, Except.bind] at h
          by_cases hts : ts.height = g
          · rw [if_pos hts] at h
            simp only [pure, Except.pure, bind, Except.bind] at h
            have := ih _ _ h
            subst this
            simp [hnode, if_pos hts]
          · rw [if_neg hts] at h
            simp only [pure, Except.pure, bind, Except.bind] at h
            have := ih _ _ h
            subst this
            simp [hnode, if_neg hts]

/-- C4: when `detectProcessingGaps` succeeds, its output is exactly, per
candidate gap height: one GAP record per known extraction task at the
candidate height and the queried tipset when the chain source's tipset at the
candidate has exactly that height, and nothing when the chain source returns
a tipset at a different (higher) height — a null round. -/
theorem detectProcessingGaps_spec (node : Int → Except String types.TipSet)
    (allTasks : List String) (reportTime : Int)
    (reportHeights : List visor.ProcessingReport) (rs : List visor.GapReport)
    (h : GapIndexer.detectProcessingGaps node allTasks reportTime reportHeights = .ok rs) :
    rs = (findEpochGaps reportHeights).flatMap (fun g =>
      match node g with
      | .ok ts =>
          if ts.height = g then
            allTasks.map (fun task =>
              { Height := ts.height
                TipSet := ts.key
                Task := task
                Status := "GAP"
                Reporter := "gapIndexer"
                ReportedAt := reportTime : visor.GapReport })
          else []
      | .error _ => []) := by
  unfold GapIndexer.detectProcessingGaps at h
  simpa using detectProcessingGaps_fold node allTasks reportTime _ [] rs h

/-- Witness for C4: two recorded heights 3 and 1 give candidates 0 and 2; the
chain has a real tipset at 0 and a null round at 2 (the query returns the
tipset at height 3), so exactly the height-0 records are emitted, one per
task. -/
theorem detectProcessingGaps_spec_witness :
    ([{ Height := 0, TipSet := "K", Task := "messages", Status := "GAP",
        Reporter := "gapIndexer", ReportedAt := 7 }] : List visor.GapReport) =
      (findEpochGaps
        [{ Height := 3, TipSet := "", Task := "", Status := "" },
         { Height := 1, TipSet := "", Task := "", Status := "" }]).flatMap (fun g =>
        match (if g = 2 then Except.ok ({ height := 3, key := "K3" } : types.TipSet)
               else Except.ok ({ height := g, key := "K" } : types.TipSet) :
               Except String types.TipSet) with
        | .ok ts =>
            if ts.height = g then
              ["messages"].map (fun task =>
                { Height := ts.height
                  TipSet := ts.key
                  Task := task
                  Status := "GAP"
                  Reporter := "gapIndexer"
                  ReportedAt := 7 : visor.GapReport })
            else []
        | .error _ => []) :=
  detectProcessingGaps_spec
    (fun g : Int =>
      if g = 2 then Except.ok ({ height := 3, key := "K3" } : types.TipSet)
      else Except.ok ({ height := g, key := "K" } : types.TipSet))
    ["messages"] 7
    [{ Height := 3, TipSet := "", Task := "", Status := "" },
     { Height := 1, TipSet := "", Task := "", Status := "" }]
    [{ Height := 0, TipSet := "K", Task := "messages", Status := "GAP",
       Reporter := "gapIndexer", ReportedAt := 7 }]
    (by rfl)

theorem mapM_ok_forall2 {α β : Type} (f : α → Except String β) :
    ∀ (l : List α) (rs : List β), l.mapM f = .ok rs →
      List.Forall₂ (fun a b => f a = .ok b) l rs := by
  intro l
  induction l with
  | nil =>
      intro rs h
      simp only [List.mapM_nil, pure, Except.pure] at h
      cases h
      constructor
  | cons a l ih =>
      intro rs h
      rw [List.mapM_cons] at h
      cases hfa : f a with
      | error e =>
          rw [hfa] at h
          simp only [pure, Except.pure, bind, Except.bind] at h
          exact Except.noConfusion h
      | ok b =>
          rw [hfa] at h
          simp only [pure, Except.pure, bind, Except.bind] at h
          cases hml : l.mapM f with
          | error e =>
              rw [hml] at h
              exact Except.noConfusion h
          | ok bs =>
              rw [hml] at h
              simp only [pure, Except.pure, bind, Except.bind] at h
              cases h
              exact List.Forall₂.cons hfa (ih bs hml)

/-- Counterexample for C5 as stated: a skip record whose stored tipset is
TSREC, at a height that is a null round (the chain query at height 5 returns
the tipset at height 6 with key K6), is re-emitted with the chain-queried key
K6 — not with the record's already-known tipset. -/
theorem detectSkippedTipSets_counterexample :
    GapIndexer.detectSkippedTipSets
      (fun _ => .ok ({ height := 6, key := "K6" } : types.TipSet)) 0
      [{ Height := 5, TipSet := "TSREC", Task := "messages",
         Status := visor.ProcessingStatusSkip }] =
      .ok [{ Height := 5, TipSet := "K6", Task := "messages", Status := "GAP",
             Reporter := "gapIndexer", ReportedAt := 0 }] ∧
    "K6" ≠ "TSREC" :=
  ⟨rfl, by decide⟩

/-- C5 amended: the skip detector selects exactly the completion records with
status skip, and for each of them (in height-descending query order) emits
exactly one GAP record carrying the record's height and task together with
the key of the tipset the chain source returns at that height (at a null
round this is a later tipset's key, not the record's own); no null-round
check suppresses the emission, but a chain-query failure aborts the whole
detection. -/
theorem detectSkippedTipSets_spec (node : Int → Except String types.TipSet)
    (reportTime : Int) (table : List visor.ProcessingReport)
    (rs : List visor.GapReport)
    (h : GapIndexer.detectSkippedTipSets node reportTime table = .ok rs) :
    List.Forall₂ (fun (r : visor.ProcessingReport) (g : visor.GapReport) =>
        ∃ ts, node r.Height = .ok ts ∧
          g = { Height := r.Height, TipSet := ts.key, Task := r.Task,
                Status := "GAP", Reporter := "gapIndexer",
                ReportedAt := reportTime })
      (queryProcessingSkips table) rs ∧
    (∀ r, r ∈ queryProcessingSkips table ↔
      r ∈ table ∧ r.Status = visor.ProcessingStatusSkip) := by
  constructor
  · have h2 := mapM_ok_forall2 _ _ _ h
    refine h2.imp ?_
    intro r g hf
    cases hts : node r.Height with
    | error e =>
        rw [hts] at hf
        simp only [pure, Except.pure, bind, Except.bind] at hf
        exact Except.noConfusion hf
    | ok ts =>
        rw [hts] at hf
        simp only [pure, Except.pure, bind, Except.bind] at hf
        cases hf
        exact ⟨ts, rfl, rfl⟩
  · intro r
    unfold queryProcessingSkips
    rw [List.mem_insertionSort, List.mem_filter]
    simp

/-- Witness for C5: the amended theorem applied to the null-round scenario of
the counterexample — the emitted record pairs with the skip record as the
theorem describes. -/
theorem detectSkippedTipSets_spec_witness :
    List.Forall₂ (fun (r : visor.ProcessingReport) (g : visor.GapReport) =>
        ∃ ts : types.TipSet,
          (Except.ok ({ height := 6, key := "K6" } : types.TipSet) :
            Except String types.TipSet) = .ok ts ∧
          g = { Height := r.Height, TipSet := ts.key, Task := r.Task,
                Status := "GAP", Reporter := "gapIndexer", ReportedAt := 0 })
      (queryProcessingSkips
        [{ Height := 5, TipSet := "TSREC", Task := "messages",
           Status := visor.ProcessingStatusSkip }])
      [{ Height := 5, TipSet := "K6", Task := "messages", Status := "GAP",
         Reporter := "gapIndexer", ReportedAt := 0 }] :=
  (detectSkippedTipSets_spec
    (fun _ => .ok ({ height := 6, key := "K6" } : types.TipSet)) 0
    [{ Height := 5, TipSet := "TSREC", Task := "messages",
       Status := visor.ProcessingStatusSkip }]
    [{ Height := 5, TipSet := "K6", Task := "messages", Status := "GAP",
       Reporter := "gapIndexer", ReportedAt := 0 }]
    (by rfl)).1

theorem GapFiller.queryGaps_mem (tasks : List String) (db : List visor.GapReport)
    (g : visor.GapReport) :
    g ∈ GapFiller.queryGaps tasks db ↔
      g ∈ db ∧ g.Status = "GAP" ∧ (tasks = [] ∨ g.Task ∈ tasks) := by
  unfold GapFiller.queryGaps
  rw [List.mem_insertionSort]
  cases tasks with
  | nil => simp [List.mem_filter]
  | cons t ts =>
      simp [List.mem_filter, and_assoc]
      tauto

/-- Counterexample for C1 as stated: a failed re-drive (error text boom) of
the single GAP record sets the record's status to the error text itself —
after the run the stored status is boom, not GAP, so a future status=GAP
query does not pick it up again. -/
theorem GapFiller.Run_counterexample :
    GapFiller.Run [] (fun _ _ => .error "boom")
      [{ Height := 7, TipSet := "ts", Task := "messages", Status := "GAP",
         Reporter := "r", ReportedAt := 0 }] =
      [{ Height := 7, TipSet := "ts", Task := "messages", Status := "boom",
         Reporter := "r", ReportedAt := 0 }] ∧
    "boom" ≠ "GAP" :=
  ⟨rfl, by decide⟩

/-- C1 amended: GapFiller.Run processes exactly the Gap records whose status
is GAP (restricted to the filler's configured task list when that list is
non-empty); for each such record a successful re-drive of the single-height,
single-task extraction sets the record's status to FILLED, and a failed
re-drive records the error string as the record's status — replacing GAP, so
a future status=GAP query will not retry it. -/
theorem GapFiller.Run_spec (tasks : List String)
    (run : Int → String → Except String Unit) (db : List visor.GapReport) :
    (∀ g, g ∈ GapFiller.queryGaps tasks db ↔
      g ∈ db ∧ g.Status = "GAP" ∧ (tasks = [] ∨ g.Task ∈ tasks)) ∧
    (∀ gap, gap ∈ GapFiller.queryGaps tasks db →
      (run gap.Height gap.Task = .ok () →
        { gap with Status := "FILLED" } ∈ GapFiller.Run tasks run db) ∧
      (∀ e, run gap.Height gap.Task = .error e →
        { gap with Status := e } ∈ GapFiller.Run tasks run db)) := by
  refine ⟨fun g => GapFiller.queryGaps_mem tasks db g, ?_⟩
  intro gap hmem
  constructor
  · intro hok
    unfold GapFiller.Run
    rw [List.mem_map]
    exact ⟨gap, hmem, by rw [hok]⟩
  · intro e herr
    unfold GapFiller.Run
    rw [List.mem_map]
    exact ⟨gap, hmem, by rw [herr]⟩

/-- Witness for C1: one GAP record, a successful re-drive; the theorem puts
the FILLED copy of the record in the run's output. -/
theorem GapFiller.Run_spec_witness :
    ({ Height := 7, TipSet := "ts", Task := "messages", Status := "FILLED",
       Reporter := "r", ReportedAt := 0 } : visor.GapReport) ∈
      GapFiller.Run [] (fun _ _ => .ok ())
        [{ Height := 7, TipSet := "ts", Task := "messages", Status := "GAP",
           Reporter := "r", ReportedAt := 0 }] :=
  ((GapFiller.Run_spec [] (fun _ _ => .ok ())
    [{ Height := 7, TipSet := "ts", Task := "messages", Status := "GAP",
       Reporter := "r", ReportedAt := 0 }]).2
    { Height := 7, TipSet := "ts", Task := "messages", Status := "GAP",
      Reporter := "r", ReportedAt := 0 }
    (by decide)).1 rfl

end gap

namespace miner

theorem applyPreCommitChanges_filter_modify (changes : List MapChange) :
    ∀ c, applyPreCommitChanges changes c =
      applyPreCommitChanges (changes.filter (fun ch => !ch.isModify)) c := by
  induction changes with
  | nil => intro c; rfl
  | cons ch rest ih =>
      intro c
      cases ch with
      | Add k a =>
          show (c.Add k a >>= fun c2 => applyPreCommitChanges rest c2) = _
          have hfil : (MapChange.Add k a :: rest).filter (fun ch => !ch.isModify) =
              MapChange.Add k a :: rest.filter (fun ch => !ch.isModify) := rfl
          rw [hfil]
          show _ = (c.Add k a >>= fun c2 => applyPreCommitChanges (rest.filter _) c2)
          cases hadd : c.Add k a with
          | error e => simp only [hadd, bind, Except.bind]
          | ok c2 => simp only [hadd, bind, Except.bind]; exact ih c2
      | Remove k b =>
          show (c.Remove k b >>= fun c2 => applyPreCommitChanges rest c2) = _
          have hfil : (MapChange.Remove k b :: rest).filter (fun ch => !ch.isModify) =
              MapChange.Remove k b :: rest.filter (fun ch => !ch.isModify) := rfl
          rw [hfil]
          show _ = (c.Remove k b >>= fun c2 => applyPreCommitChanges (rest.filter _) c2)
          cases hrem : c.Remove k b with
          | error e => simp only [hrem, bind, Except.bind]
          | ok c2 => simp only [hrem, bind, Except.bind]; exact ih c2
      | Modify k b a =>
          have hfil : (MapChange.Modify k b a :: rest).filter (fun ch => !ch.isModify) =
              rest.filter (fun ch => !ch.isModify) := rfl
          rw [hfil, ← ih c]
          show (c.Modify k b a >>= fun c2 => applyPreCommitChanges rest c2) = _
          simp only [preCommitDiffContainer.Modify, pure, Except.pure, bind, Except.bind]

/-- C10: DiffPreCommits never reports modified entries — the result type has
only Added and Removed fields, the per-key Modify handler is a no-op, and
dropping every Modify change from the change list (keys present on both sides
with different serialized bytes) leaves the result of DiffPreCommits
unchanged, for any pair of states. -/
theorem DiffPreCommits_ignores_modify (changes : List MapChange) (pre cur : State) :
    DiffPreCommits changes pre cur =
      DiffPreCommits (changes.filter (fun ch => !ch.isModify)) pre cur ∧
    ∀ (c : preCommitDiffContainer) (k : String) (b a : Deferred),
      c.Modify k b a = .ok c := by
  constructor
  · unfold DiffPreCommits
    rw [applyPreCommitChanges_filter_modify]
  · intro c k b a
    rfl

/-- C6: the sector Modify handler, given a key present on both sides whose
raw values decode to siFrom and siTo, appends the (From, To) extension record
to the Extended results exactly when the two expirations differ; when the
expirations agree (only unrelated fields differ) the container — and hence
the Extended result — is unchanged, and Added and Removed are never touched. -/
theorem sectorModify_extends_iff (c : sectorDiffContainer) (k : Nat)
    (b a : Deferred) (siFrom siTo : SectorOnChainInfo)
    (hf : c.pre.decodeSectorOnChainInfo b = .ok siFrom)
    (ht : c.after.decodeSectorOnChainInfo a = .ok siTo) :
    ∃ c2, c.Modify k b a = .ok c2 ∧
      c2.Results.Added = c.Results.Added ∧
      c2.Results.Removed = c.Results.Removed ∧
      (c2.Results.Extended =
          c.Results.Extended ++ [{ From := siFrom, To := siTo }] ↔
        siFrom.Expiration ≠ siTo.Expiration) ∧
      (siFrom.Expiration = siTo.Expiration → c2 = c) := by
  unfold sectorDiffContainer.Modify
  rw [hf, ht]
  simp only [pure, Except.pure, bind, Except.bind]
  by_cases hexp : siFrom.Expiration = siTo.Expiration
  · rw [if_neg (by simp [hexp])]
    refine ⟨c, rfl, rfl, rfl, ?_, fun _ => rfl⟩
    constructor
    · intro habs
      have := congrArg List.length habs
      simp at this
    · intro hne
      exact absurd hexp hne
  · rw [if_pos (by simp [hexp])]
    refine ⟨_, rfl, rfl, rfl, ⟨fun _ => hexp, fun _ => rfl⟩, fun h => absurd h hexp⟩

/-- Witness for C6: a container whose decoders read the expiration from the
raw bytes; sector present on both sides with equal expiration (100) but a
changed unrelated field yields no extension record (the container comes back
unchanged), exercising the filtered-modification scenario. -/
theorem sectorModify_extends_iff_witness :
    ∃ c2,
      sectorDiffContainer.Modify
        { Results := { Added := [], Extended := [], Removed := [] }
          pre := { Code := builtin3.StorageMinerActorCodeID
                   decodeSectorOnChainInfo := fun d =>
                     .ok { SectorNumber := 10, Expiration := 100, rest := d.Raw }
                   decodeSectorPreCommitOnChainInfo := fun _ => .error "unused" }
          after := { Code := builtin3.StorageMinerActorCodeID
                     decodeSectorOnChainInfo := fun d =>
                       .ok { SectorNumber := 10, Expiration := 100, rest := d.Raw }
                     decodeSectorPreCommitOnChainInfo := fun _ => .error "unused" } }
        10 { Raw := [1] } { Raw := [2] } = .ok c2 ∧
      c2.Results.Added = [] ∧
      c2.Results.Removed = [] ∧
      (c2.Results.Extended =
          [] ++ [{ From := { SectorNumber := 10, Expiration := 100, rest := [1] },
                   To := { SectorNumber := 10, Expiration := 100, rest := [2] } }] ↔
        (100 : Int) ≠ 100) ∧
      ((100 : Int) = 100 →
        c2 = { Results := { Added := [], Extended := [], Removed := [] }
               pre := { Code := builtin3.StorageMinerActorCodeID
                        decodeSectorOnChainInfo := fun d =>
                          .ok { SectorNumber := 10, Expiration := 100, rest := d.Raw }
                        decodeSectorPreCommitOnChainInfo := fun _ => .error "unused" }
               after := { Code := builtin3.StorageMinerActorCodeID
                          decodeSectorOnChainInfo := fun d =>
                            .ok { SectorNumber := 10, Expiration := 100, rest := d.Raw }
                          decodeSectorPreCommitOnChainInfo := fun _ => .error "unused" } }) :=
  sectorModify_extends_iff _ 10 { Raw := [1] } { Raw := [2] }
    { SectorNumber := 10, Expiration := 100, rest := [1] }
    { SectorNumber := 10, Expiration := 100, rest := [2] }
    rfl rfl

/-- C2 (code bug in the array selector): SectorsAmtBitwidth only accepts the
four storage-miner codes (so market codes can never reach the selector), the
v0 and v2 miner codes share bitwidth 3, yet `arrayRequiresLegacyDiffing` on
two v0-miner states (or a v0/v2 pair) with equal bitwidths returns false —
its guards compare against the storage-market codes, so the structural path
is selected where the claim, the function's own comment (amt/v3 cannot read
amt/v2 nodes) and the sibling map selector require the generic legacy diff;
`mapRequiresLegacyDiffing` on the same v0 codes correctly returns true, and
returns false for v3 states with equal parameters. -/
theorem arrayRequiresLegacyDiffing_bug :
    SectorsAmtBitwidth builtin0.StorageMinerActorCodeID = .ok 3 ∧
    SectorsAmtBitwidth builtin2.StorageMinerActorCodeID = .ok 3 ∧
    SectorsAmtBitwidth builtin0.StorageMarketActorCodeID = .error "unknown actor code" ∧
    arrayRequiresLegacyDiffing exampleStateV0 exampleStateV0 3 3 = false ∧
    arrayRequiresLegacyDiffing exampleStateV0 exampleStateV2 3 3 = false ∧
    mapRequiresLegacyDiffing exampleStateV0 exampleStateV0
      { Bitwidth := 8, HashFunc := 0 } { Bitwidth := 8, HashFunc := 0 } = true ∧
    mapRequiresLegacyDiffing exampleStateV3 exampleStateV3
      { Bitwidth := 5, HashFunc := 0 } { Bitwidth := 5, HashFunc := 0 } = false :=
  ⟨rfl, rfl, rfl, rfl, rfl, rfl, rfl⟩

end miner

namespace message

/-- C8: whatever the per-item outcomes, processBatch on a successfully leased
batch records each item's error text (empty on success) as that item's
completion detail, processes every item of the batch, and returns no error —
so no single item's extraction failure stops the batch or the enclosing
repeat-until loop. -/
theorem processBatch_isolates_errors
    (batch : List SentinelVisor.visor.ProcessingTipSet)
    (processItem : SentinelVisor.visor.ProcessingTipSet → Except String Unit) :
    MessageProcessor.processBatch (.ok batch) processItem =
      (batch.map (fun item =>
        { TipSet := item.TipSet
          Height := item.Height
          ErrorsDetected := match processItem item with
            | .ok _ => ""
            | .error e => e }), false, none) := by
  cases batch with
  | nil => rfl
  | cons b bs =>
      unfold MessageProcessor.processBatch
      refine congrArg (fun l => (l, false, none)) ?_
      refine List.map_congr_left ?_
      intro item _
      cases processItem item <;> rfl

theorem hasCid_persistOne_mono (c : String) (m : messagemodel.Message)
    (t : List messagemodel.Message) (h : t.any (fun r => r.Cid == c) = true) :
    (m.PersistWithTx t).any (fun r => r.Cid == c) = true := by
  unfold messagemodel.Message.PersistWithTx
  by_cases hp : t.any (fun r => r.Cid == m.Cid) = true
  · rw [if_pos hp]; exact h
  · rw [if_neg hp]
    simp only [List.any_append]
    rw [h]
    rfl

theorem hasCid_self_persistOne (m : messagemodel.Message)
    (t : List messagemodel.Message) :
    (m.PersistWithTx t).any (fun r => r.Cid == m.Cid) = true := by
  unfold messagemodel.Message.PersistWithTx
  by_cases hp : t.any (fun r => r.Cid == m.Cid) = true
  · rw [if_pos hp]; exact hp
  · rw [if_neg hp]
    simp

theorem hasCid_persistList_mono (c : String) :
    ∀ (ms : List messagemodel.Message) (t : List messagemodel.Message),
      t.any (fun r => r.Cid == c) = true →
      (messagemodel.Messages.PersistWithTx ms t).any (fun r => r.Cid == c) = true := by
  intro ms
  induction ms with
  | nil => intro t h; exact h
  | cons a rest ih =>
      intro t h
      exact ih _ (hasCid_persistOne_mono c a t h)

theorem hasCid_mem_persistList :
    ∀ (ms : List messagemodel.Message) (t : List messagemodel.Message)
      (m : messagemodel.Message), m ∈ ms →
      (messagemodel.Messages.PersistWithTx ms t).any (fun r => r.Cid == m.Cid) = true := by
  intro ms
  induction ms with
  | nil => intro t m h; cases h
  | cons a rest ih =>
      intro t m h
      rcases List.mem_cons.mp h with rfl | hmem
      · exact hasCid_persistList_mono _ rest _ (hasCid_self_persistOne m t)
      · exact ih _ m hmem

theorem persistList_of_all_present :
    ∀ (ms : List messagemodel.Message) (t : List messagemodel.Message),
      (∀ m ∈ ms, t.any (fun r => r.Cid == m.Cid) = true) →
      messagemodel.Messages.PersistWithTx ms t = t := by
  intro ms
  induction ms with
  | nil => intro t _; rfl
  | cons a rest ih =>
      intro t h
      have ha : a.PersistWithTx t = t := by
        unfold messagemodel.Message.PersistWithTx
        rw [if_pos (h a (List.mem_cons_self a rest))]
      show messagemodel.Messages.PersistWithTx rest (a.PersistWithTx t) = t
      rw [ha]
      exact ih t (fun m hm => h m (List.mem_cons_of_mem a hm))

/-- C9: persisting a message list is idempotent — a second persist of the
same list is a no-op because every row's content hash is already present and
the insert is on-conflict-do-nothing keyed by Cid — and the per-tipset
persistence step is transactional: it either applies both row-group writes in
full or, on any failure, rolls the store back unchanged. -/
theorem message_persist_idempotent_transactional :
    (∀ (ms table : List messagemodel.Message),
      messagemodel.Messages.PersistWithTx ms
        (messagemodel.Messages.PersistWithTx ms table) =
      messagemodel.Messages.PersistWithTx ms table) ∧
    (∀ (δ : Type) (db : δ) (f g : δ → Except String δ),
      (∃ d1 d2, f db = .ok d1 ∧ g d1 = .ok d2 ∧
        processTipSetPersist db f g = (d2, none)) ∨
      ((processTipSetPersist db f g).1 = db ∧
        (processTipSetPersist db f g).2.isSome = true)) := by
  constructor
  · intro ms table
    exact persistList_of_all_present ms _ (fun m hm => hasCid_mem_persistList ms table m hm)
  · intro δ db f g
    unfold processTipSetPersist RunInTransaction
    cases hf : f db with
    | error e =>
        right
        simp [bind, Except.bind, hf]
    | ok d1 =>
        cases hg : g d1 with
        | error e =>
            right
            simp [bind, Except.bind, hf, hg]
        | ok d2 =>
            left
            refine ⟨d1, d2, rfl, hg, ?_⟩
            simp [bind, Except.bind, pure, Except.pure, hf, hg]

theorem except_bind_congr {α β : Type} (x : Except String α)
    (f g : α → Except String β) (h : ∀ a, f a = g a) : (x >>= f) = (x >>= g) := by
  cases x <;> simp [bind, Except.bind, h]

theorem extract_eq_fold_occ (serialize : types.Message → Except String (List Nat))
    (tsHeight : Int) :
    ∀ (blkMsgs : List (String × api.BlockMessages)) (st0 : ExtractState),
      blkMsgs.foldlM (fun st p => (blockMessageList p.2).foldlM
        (fun st m => processMessage serialize tsHeight p.1 st m) st) st0 =
      (blkMsgs.flatMap (fun p =>
          (blockMessageList p.2).map (fun m => (p.1, m)))).foldlM
        (fun st pm => processMessage serialize tsHeight pm.1 st pm.2) st0 := by
  intro blkMsgs
  induction blkMsgs with
  | nil => intro st0; rfl
  | cons p rest ih =>
      intro st0
      rw [List.foldlM_cons, List.flatMap_cons, List.foldlM_append]
      have hmap : ∀ st2 : ExtractState,
          ((blockMessageList p.2).map (fun m => (p.1, m))).foldlM
            (fun st pm => processMessage serialize tsHeight pm.1 st pm.2) st2 =
          (blockMessageList p.2).foldlM
            (fun st m => processMessage serialize tsHeight p.1 st m) st2 := by
        intro st2
        induction blockMessageList p.2 generalizing st2 with
        | nil => rfl
        | cons m ms ihm =>
            rw [List.map_cons, List.foldlM_cons, List.foldlM_cons]
            exact except_bind_congr _ _ _ (fun st3 => ihm st3)
      rw [hmap]
      exact except_bind_congr _ _ _ (fun st3 => ih st3)

theorem processMessage_fold_invariant
    (serialize : types.Message → Except String (List Nat)) (tsHeight : Int) :
    ∀ (occ : List (String × types.Message)) (st0 st1 : ExtractState),
      occ.foldlM (fun st pm => processMessage serialize tsHeight pm.1 st pm.2) st0 =
        .ok st1 →
      st1.bmsgModels = st0.bmsgModels ++ occ.map (fun pm =>
        ({ Block := pm.1, Message := pm.2.cid } : messagemodel.BlockMessage)) ∧
      (st0.msgsSeen = st0.msgModels.map (fun r => r.Cid) →
        st1.msgsSeen = st1.msgModels.map (fun r => r.Cid)) ∧
      (∀ c, c ∈ st1.msgsSeen ↔
        c ∈ st0.msgsSeen ∨ c ∈ occ.map (fun pm => pm.2.cid)) ∧
      (st0.msgsSeen.Nodup → st1.msgsSeen.Nodup) := by
  intro occ
  induction occ with
  | nil =>
      intro st0 st1 h
      simp only [List.foldlM_nil, pure, Except.pure] at h
      cases h
      simp
  | cons pm rest ih =>
      intro st0 st1 h
      rw [List.foldlM_cons] at h
      by_cases hseen : st0.msgsSeen.contains pm.2.cid = true
      · unfold processMessage at h
        simp only [hseen, if_true, pure, Except.pure, bind, Except.bind] at h
        obtain ⟨h1, h2, h3, h4⟩ := ih _ _ h
        simp only at h1 h2 h3 h4
        have hmem : pm.2.cid ∈ st0.msgsSeen := by simpa using hseen
        refine ⟨?_, ?_, ?_, ?_⟩
        · rw [h1]
          simp
        · intro hinv
          exact h2 (by simpa using hinv)
        · intro c
          rw [h3 c]
          simp only [List.map_cons, List.mem_cons]
          constructor
          · rintro (hc | hc)
            · exact Or.inl hc
            · exact Or.inr (Or.inr hc)
          · rintro (hc | hc | hc)
            · exact Or.inl hc
            · subst hc; exact Or.inl hmem
            · exact Or.inr hc
        · intro hnd
          exact h4 (by simpa using hnd)
      · cases hser : serialize pm.2 with
        | error e =>
            exfalso
            have hseen2 : pm.2.cid ∉ st0.msgsSeen := by simpa using hseen
            unfold processMessage at h
            simp [hseen2, hser, bind, Except.bind] at h
        | ok bts =>
            unfold processMessage at h
            simp only [hseen, if_false, Bool.false_eq_true, hser, pure, Except.pure,
              bind, Except.bind] at h
            obtain ⟨h1, h2, h3, h4⟩ := ih _ _ h
            simp only at h1 h2 h3 h4
            have hnmem : pm.2.cid ∉ st0.msgsSeen := by simpa using hseen
            refine ⟨?_, ?_, ?_, ?_⟩
            · rw [h1]
              simp
            · intro hinv
              refine h2 ?_
              simp only [List.map_append, List.map_cons, List.map_nil]
              rw [hinv]
            · intro c
              rw [h3 c]
              simp only [List.mem_append, List.mem_cons, List.mem_singleton,
                List.map_cons, List.not_mem_nil]
              tauto
            · intro hnd
              refine h4 ?_
              simp [List.nodup_append, hnd, hnmem]

/-- C7: when extractMessageModels succeeds, the block-message rows are exactly
one (block, message-cid) pair per occurrence of a message in a block of the
tipset — a message contained in several blocks yields one pair per containing
block — while the returned unique-message rows carry pairwise-distinct CIDs
and contain a row for a CID exactly when some occurrence has that CID
(duplicates across blocks are deduplicated by CID). -/
theorem extractMessageModels_spec
    (serialize : types.Message → Except String (List Nat)) (tsHeight : Int)
    (blkMsgs : List (String × api.BlockMessages)) (st : ExtractState)
    (h : MessageProcessor.extractMessageModels serialize tsHeight blkMsgs = .ok st) :
    st.bmsgModels = (blkMsgs.flatMap (fun p =>
        (blockMessageList p.2).map (fun m => (p.1, m)))).map (fun pm =>
      ({ Block := pm.1, Message := pm.2.cid } : messagemodel.BlockMessage)) ∧
    (st.msgModels.map (fun r => r.Cid)).Nodup ∧
    (∀ c, c ∈ st.msgModels.map (fun r => r.Cid) ↔
      c ∈ (blkMsgs.flatMap (fun p =>
        (blockMessageList p.2).map (fun m => (p.1, m)))).map (fun pm => pm.2.cid)) := by
  unfold MessageProcessor.extractMessageModels at h
  rw [extract_eq_fold_occ] at h
  obtain ⟨h1, h2, h3, h4⟩ := processMessage_fold_invariant serialize tsHeight _ _ _ h
  have hinv : st.msgsSeen = st.msgModels.map (fun r => r.Cid) :=
    h2 (by simp [ExtractState.init])
  refine ⟨?_, ?_, ?_⟩
  · rw [h1]
    simp [ExtractState.init]
  · rw [← hinv]
    exact h4 (by simp [ExtractState.init])
  · intro c
    rw [← hinv, h3 c]
    simp [ExtractState.init]

/-- Witness for C7: one message (cid M1) appearing in both blocks B1 and B2
plus a second message (cid M2) in B2 only — three inclusion pairs but two
unique rows, with M1 deduplicated. -/
theorem extractMessageModels_spec_witness :
    ∃ st : ExtractState,
      MessageProcessor.extractMessageModels (fun _ => .ok [0]) 11
        [("B1", { BlsMessages := [{ cid := "M1", From := "f", To := "t",
                                    Value := "v", GasFeeCap := "c", GasPremium := "p",
                                    GasLimit := 5, Nonce := 0, Method := 0, Params := [] }]
                  SecpkMessages := [] }),
         ("B2", { BlsMessages := [{ cid := "M1", From := "f", To := "t",
                                    Value := "v", GasFeeCap := "c", GasPremium := "p",
                                    GasLimit := 5, Nonce := 0, Method := 0, Params := [] },
                                  { cid := "M2", From := "f", To := "t",
                                    Value := "v", GasFeeCap := "c", GasPremium := "p",
                                    GasLimit := 7, Nonce := 1, Method := 0, Params := [] }]
                  SecpkMessages := [] })] = .ok st ∧
      st.bmsgModels.map (fun r => (r.Block, r.Message)) =
        [("B1", "M1"), ("B2", "M1"), ("B2", "M2")] ∧
      st.msgModels.map (fun r => r.Cid) = ["M1", "M2"] ∧
      (st.msgModels.map (fun r => r.Cid)).Nodup := by
  refine ⟨_, rfl, ?_, ?_, ?_⟩
  · rfl
  · rfl
  · have h := extractMessageModels_spec (fun _ => .ok [0]) 11
      [("B1", { BlsMessages := [{ cid := "M1", From := "f", To := "t",
                                  Value := "v", GasFeeCap := "c", GasPremium := "p",
                                  GasLimit := 5, Nonce := 0, Method := 0, Params := [] }]
                SecpkMessages := [] }),
       ("B2", { BlsMessages := [{ cid := "M1", From := "f", To := "t",
                                  Value := "v", GasFeeCap := "c", GasPremium := "p",
                                  GasLimit := 5, Nonce := 0, Method := 0, Params := [] },
                                { cid := "M2", From := "f", To := "t",
                                  Value := "v", GasFeeCap := "c", GasPremium := "p",
                                  GasLimit := 7, Nonce := 1, Method := 0, Params := [] }]
                SecpkMessages := [] })] _ rfl
    exact h.2.1

end message

end SentinelVisor
